import Mathlib

set_option maxRecDepth 40000

/-!
Verification of the static-site build script `sync.py`.

The development shallowly embeds the script's operations in Lean:

* The filesystem is a partial map from path strings to file contents
  (`FS := String → Option String`); `os.path.getmtime` timestamps, where
  needed, are carried alongside contents in explicit directory listings.
* The Markdown renderer (`markdown2.markdown`) and the date formatter
  (`datetime.strftime`) are external capabilities and are passed in as
  function parameters; nothing proved here depends on their behaviour.
* Python regular-expression calls are embedded by their specialised
  semantics for the concrete patterns occurring in the script.  Every
  pattern used starts with a literal, so the leftmost-match position is
  always an occurrence of that literal; the lazy quantifiers make each
  subsequent sub-match the shortest one.  `re.sub` is embedded for
  replacement strings containing no backslash, which is exactly the case
  relevant here (backslashes in a replacement would be processed as escape
  sequences by Python).
* `json.load` is an external parser, passed in as a parameter
  `decodeProjects : String → Option (List Project)`; `none` models a
  `json.JSONDecodeError`.
-/

/-- Filesystem model: a partial map from paths to file contents. -/
def FS : Type := String → Option String

/-- Characters stripped by Python's `str.strip()` (the ASCII whitespace
characters; the inputs manipulated by the script are ASCII). -/
def pySpace (c : Char) : Bool :=
  c = ' ' || c = '\t' || c = '\n' || c = '\r' || c = '\x0b' || c = '\x0c'

/-- Embedding of Python `str.strip()`: remove leading and trailing whitespace. -/
def pyStrip (l : List Char) : List Char :=
  ((l.dropWhile pySpace).reverse.dropWhile pySpace).reverse

/-- Proposition that pattern `pat` occurs in `text` starting at index `i`. -/
def occursAt (pat text : List Char) (i : Nat) : Prop :=
  pat <+: text.drop i

/-- Number of indices at which `pat` occurs in `text`. -/
def countOccur (pat text : List Char) : Nat :=
  (List.range (text.length + 1)).countP (fun i => decide (pat <+: text.drop i))

/-- Index of the first occurrence of `pat` in `text`, if any. -/
def findPat (pat : List Char) : List Char → Option Nat
  | [] => if pat.isPrefixOf [] then some 0 else none
  | c :: rest =>
    if pat.isPrefixOf (c :: rest) then some 0
    else (findPat pat rest).map (· + 1)

/-- Leftmost match of the regex `s(.|\n)*?e` in `text` (with `s`, `e`
literal strings): the pattern must begin with the literal `s`, so the
match starts at the first occurrence of `s` that is followed by an
occurrence of `e`; if the first occurrence of `s` has no `e` after it,
no later one does either.  The lazy quantifier ends the match at the
first occurrence of `e` after that.  Returns the start index of `s`
and the start index of `e`. -/
def findMatch (s e text : List Char) : Option (Nat × Nat) :=
  match findPat s text with
  | none => none
  | some i =>
    match findPat e (text.drop (i + s.length)) with
    | none => none
    | some k => some (i, i + s.length + k)

/-- Fuelled worker for `reSub`; each replaced match consumes at least one
character of the text, so fuel `text.length` suffices. -/
def reSubAux (s e repl : List Char) : Nat → List Char → List Char
  | 0, text => text
  | Nat.succ fuel, text =>
    match findMatch s e text with
    | none => text
    | some (i, j) =>
      text.take i ++ repl ++ reSubAux s e repl fuel (text.drop (j + e.length))

/-- Embedding of `re.sub(f'{s}(.|\n)*?{e}', repl, text)` for a replacement
string `repl` containing no backslash: every non-overlapping leftmost
match is replaced by `repl`, scanning resumes after the replaced span. -/
def reSub (s e repl text : List Char) : List Char :=
  reSubAux s e repl text.length text

/-- Start marker comment built by `update_index_html`. -/
def startMarker (placeholder : String) : String :=
  "<!-- " ++ placeholder ++ "_START -->"

/-- End marker comment built by `update_index_html`. -/
def endMarker (placeholder : String) : String :=
  "<!-- " ++ placeholder ++ "_END -->"

/-- Fixed indentation before the end marker in the replacement string
(24 spaces, exactly as in the source). -/
def indent24 : String := "                        "

/-- Embedding of `update_index_html(content_to_inject, placeholder, index_path)`:
read the index file (missing file: no side effect), substitute every
marker-delimited region, write the full file back. -/
def update_index_html (content_to_inject placeholder index_path : String)
    (fs : FS) : FS :=
  match fs index_path with
  | none => fs
  | some index_content =>
    let ps := startMarker placeholder
    let pe := endMarker placeholder
    let updated := String.mk (reSub ps.data pe.data
      (ps.data ++ '\n' :: content_to_inject.data ++ '\n' :: indent24.data ++ pe.data)
      index_content.data)
    fun p => if p = index_path then some updated else fs p

/-- Embedding of `os.path.basename` (posix): the part after the last slash. -/
def basenameL (l : List Char) : List Char :=
  (l.reverse.takeWhile (fun c => c ≠ '/')).reverse

/-- Index of the last dot in a list of characters, if any. -/
def lastDotIdx (b : List Char) : Option Nat :=
  (b.reverse.findIdx? (fun c => c = '.')).map (fun k => b.length - 1 - k)

/-- Root part of `os.path.splitext` applied to a basename: cut at the last
dot, unless every character before that dot is itself a dot (leading dots
do not start an extension). -/
def splitextRoot (b : List Char) : List Char :=
  match lastDotIdx b with
  | none => b
  | some d => if (b.take d).any (fun c => c ≠ '.') then b.take d else b

/-- Computable check that `s` starts with `pre` (the semantics of
`String.startsWith`, stated on the character lists so that it reduces). -/
def strStartsWith (s pre : String) : Bool := pre.data.isPrefixOf s.data

/-- Computable check that `s` ends with `suf` (the semantics of
`String.endsWith` / Python `str.endswith`). -/
def strEndsWith (s suf : String) : Bool :=
  suf.data.reverse.isPrefixOf s.data.reverse

/-- Embedding of `os.path.join` (posix, two arguments). -/
def os_path_join (a b : String) : String :=
  if strStartsWith b "/" then b
  else if a = "" ∨ strEndsWith a "/" then a ++ b
  else a ++ "/" ++ b

/-- Embedding of `os.path.basename`. -/
def os_path_basename (p : String) : String := String.mk (basenameL p.data)

/-- Output path computed by `create_blog_post`:
`os.path.join(output_dir, os.path.splitext(os.path.basename(md_file_path))[0] + '.html')`. -/
def computed_output_path (output_dir md_file_path : String) : String :=
  os_path_join output_dir
    (String.mk (splitextRoot (basenameL md_file_path.data)) ++ ".html")

/-- Scanner for `re.search(r'^#\s+(.*)', md, re.MULTILINE)`: at each line
start, a `#` followed by at least one whitespace character matches; the
greedy `\s+` then consumes the maximal whitespace run (which may cross
newlines) and `(.*)` captures up to the next newline.  The flag `atStart`
records whether the current position is a line start. -/
def titleSearch : List Char → Bool → Option (List Char)
  | [], _ => none
  | c :: rest, atStart =>
    if atStart && c = '#' && (match rest with | r :: _ => pySpace r | [] => false)
    then some ((rest.dropWhile pySpace).takeWhile (fun x => x ≠ '\n'))
    else titleSearch rest (c = '\n')

/-- Title extracted by `create_blog_post` from the Markdown source. -/
def extractTitle (md : String) : String :=
  match titleSearch md.data true with
  | some g => String.mk (pyStrip g)
  | none => "Untitled Post"

/-- Embedding of `create_blog_post(md_file_path, template_path, output_dir)`.
The Markdown renderer is the external parameter `render`.  Returns the
optional result path and the updated filesystem. -/
def create_blog_post (render : String → String)
    (md_file_path template_path output_dir : String) (fs : FS) :
    Option String × FS :=
  let output_path := computed_output_path output_dir md_file_path
  if (fs output_path).isSome then
    (some output_path, fs)
  else
    match fs md_file_path with
    | none => (none, fs)
    | some md_content =>
      match fs template_path with
      | none => (none, fs)
      | some template_html =>
        let title := extractTitle md_content
        let html_content := render md_content
        let final_html :=
          (template_html.replace "<!-- BLOG_TITLE_PLACEHOLDER -->" title).replace
            "<!-- BLOG_CONTENT_PLACEHOLDER -->" html_content
        (some output_path, fun p => if p = output_path then some final_html else fs p)

/-- Step 1 of `main`: for each listed filename ending in `.md`, convert it
with `create_blog_post`; other files are skipped.  Conversion failures are
non-fatal (the returned path is discarded by the driver). -/
def runStep1 (render : String → String)
    (source_dir template_file output_dir : String) :
    List String → FS → FS
  | [], fs => fs
  | f :: rest, fs =>
    if strEndsWith f ".md" then
      runStep1 render source_dir template_file output_dir rest
        (create_blog_post render (os_path_join source_dir f) template_file output_dir fs).2
    else
      runStep1 render source_dir template_file output_dir rest fs

/-- Project record decoded from `projects.json`.  Each field models
`project.get(...)`: `none` stands for an absent (or JSON-null) field. -/
structure Project where
  title : Option String
  description : Option String
  image : Option String
  tags : Option (List String)
  sourceCodeUrl : Option String
  liveDemoUrl : Option String
deriving DecidableEq

def cardC0 : String := "\n                        <div class=\"project-card glass-card rounded-2xl overflow-hidden group flex flex-col\">\n                            <img src=\""
def cardC1 : String := "\" alt=\""
def cardC2 : String := "\" class=\"w-full h-48 object-cover group-hover:scale-105 transition-transform duration-500\">\n                            <div class=\"p-6 flex flex-col flex-grow\">\n                                <h3 class=\"text-xl font-bold text-white mb-2\">"
def cardC3 : String := "</h3>\n                                <p class=\"text-gray-300 mb-4 flex-grow\">"
def cardC4 : String := "</p>\n                                <div class=\"flex flex-wrap gap-2 mb-4\">"
def cardC5 : String := "</div>\n                                <div class=\"flex items-center space-x-4 mt-auto\">\n                                    <a href=\""
def cardC6 : String := "\" target=\"_blank\" class=\"text-[var(--neon-green)] hover:opacity-80 font-semibold flex items-center space-x-1\"><i data-lucide=\"github\" class=\"h-5 w-5\"></i><span>Source Code</span></a>\n                                    "
def cardC7 : String := "\n                                </div>\n                            </div>\n                        </div>"

def demoC0 : String := "<a href=\""
def demoC1 : String := "\" target=\"_blank\" class=\"text-[var(--neon-green)] hover:opacity-80 font-semibold flex items-center space-x-1\"><i data-lucide=\"external-link\" class=\"h-5 w-5\"></i><span>Live Demo</span></a>"

def tagC0 : String := "<span class=\"bg-gray-700 text-xs font-semibold px-2.5 py-1 rounded-full\">"
def tagC1 : String := "</span>"

/-- Concatenated tag badges:
`"".join([f'<span ...>{tag}</span>' for tag in project.get("tags", [])])`. -/
def tagsHtml : List String → String
  | [] => ""
  | t :: ts => tagC0 ++ t ++ tagC1 ++ tagsHtml ts

/-- Live-demo button: rendered only when `project.get("liveDemoUrl")` is
truthy, i.e. the field is present and a non-empty string. -/
def liveDemoButton (p : Project) : String :=
  match p.liveDemoUrl with
  | some url => if url = "" then "" else demoC0 ++ url ++ demoC1
  | none => ""

/-- HTML card generated for a single project record (the body of the loop
in `generate_projects_html`). -/
def renderProject (p : Project) : String :=
  cardC0 ++ p.image.getD "https://placehold.co/600x300/1f2937/bfff00?text=Project"
    ++ cardC1 ++ p.title.getD "Project"
    ++ cardC2 ++ p.title.getD "Untitled Project"
    ++ cardC3 ++ p.description.getD ""
    ++ cardC4 ++ tagsHtml (p.tags.getD [])
    ++ cardC5 ++ p.sourceCodeUrl.getD "#"
    ++ cardC6 ++ liveDemoButton p
    ++ cardC7

/-- Concatenation of the project cards, in file order. -/
def projectsHtmlOfList : List Project → String
  | [] => ""
  | p :: ps => renderProject p ++ projectsHtmlOfList ps

/-- Embedding of `generate_projects_html(projects_json_path)`: a missing
file (`FileNotFoundError`) or undecodable contents (`json.JSONDecodeError`,
modelled by `decodeProjects` returning `none`) yield the empty fragment;
otherwise each record is rendered in order. -/
def generate_projects_html (decodeProjects : String → Option (List Project))
    (projects_json_path : String) (fs : FS) : String :=
  match fs projects_json_path with
  | none => ""
  | some s =>
    match decodeProjects s with
    | none => ""
    | some projects => projectsHtmlOfList projects

/-- Metadata extracted from a rendered post page. -/
structure PostDetails where
  title : String
  description : String
  path : String
  date_obj : Nat
  date_str : String
deriving DecidableEq

/-- Lazy group scanner for `re.search(r'<title>(.*?) \| hxr3tic</title>', content)`
(no DOTALL: the group may not cross a newline): starting right after a
`<title>` occurrence, capture the shortest run of non-newline characters
followed by the literal suffix `" | hxr3tic</title>"`. -/
def titleGroupScan : List Char → Option (List Char)
  | [] => none
  | c :: rest =>
    if " | hxr3tic</title>".data.isPrefixOf (c :: rest) then some []
    else if c = '\n' then none
    else (titleGroupScan rest).map (fun g => c :: g)

/-- Leftmost-match scanner for the `<title>` pattern: try every position in
order; a position matches if it starts with `<title>` and the lazy group
scan succeeds after it. -/
def htmlTitleSearch : List Char → Option (List Char)
  | [] => none
  | c :: rest =>
    if "<title>".data.isPrefixOf (c :: rest) then
      match titleGroupScan ((c :: rest).drop 7) with
      | some g => some g
      | none => htmlTitleSearch rest
    else htmlTitleSearch rest

/-- Title extracted from a rendered post page (fallback `"Untitled"`). -/
def extractHtmlTitle (content : String) : String :=
  match htmlTitleSearch content.data with
  | some g => String.mk g
  | none => "Untitled"

/-- Group of `re.search(r'<div class="blog-content">.*?<p>(.*?)</p>', content, re.DOTALL)`.
With DOTALL every lazy gap is a plain shortest gap, and each literal
sub-pattern is resolved to its first occurrence after the previous one:
if the first `<div class="blog-content">` occurrence is not followed by a
`<p>` with a `</p>` after it, no later occurrence is either (the text
after a later occurrence is a suffix of the text after the first). -/
def descSearch (content : List Char) : Option (List Char) :=
  match findPat "<div class=\"blog-content\">".data content with
  | none => none
  | some d =>
    let afterDiv := content.drop (d + "<div class=\"blog-content\">".data.length)
    match findPat "<p>".data afterDiv with
    | none => none
    | some q =>
      let afterP := afterDiv.drop (q + "<p>".data.length)
      match findPat "</p>".data afterP with
      | none => none
      | some r => some (afterP.take r)

/-- Scanner for the tail of a tag match of `re.sub('<[^<]+?>', '', s)`:
called after the opening `<` and the first (already validated) inner
character were consumed; reads up to the first `>` (success), failing on
an intervening `<` or the end of the text. -/
def tagEndGo : List Char → Option (List Char)
  | [] => none
  | c :: rest =>
    if c = '>' then some rest
    else if c = '<' then none
    else tagEndGo rest

/-- Match of `[^<]+?>` directly after an opening `<`: at least one
non-`<` character (which may itself be `>`), lazily extended to the first
`>` thereafter.  Returns the text after the matched `>`. -/
def tagEnd : List Char → Option (List Char)
  | [] => none
  | c :: rest => if c = '<' then none else tagEndGo rest

/-- Fuelled worker for `stripTags`; every step consumes at least one
character, so fuel `l.length` suffices. -/
def stripTagsAux : Nat → List Char → List Char
  | 0, l => l
  | Nat.succ _, [] => []
  | Nat.succ fuel, c :: rest =>
    if c = '<' then
      match tagEnd rest with
      | some rest' => stripTagsAux fuel rest'
      | none => c :: stripTagsAux fuel rest
    else c :: stripTagsAux fuel rest

/-- Embedding of `re.sub('<[^<]+?>', '', s)`: delete every leftmost
(non-overlapping) tag-shaped span. -/
def stripTags (l : List Char) : List Char :=
  stripTagsAux l.length l

/-- Description extracted by `extract_post_details`: first paragraph group
(fallback `"Click to read more"`), stripped, tags removed, and truncated
to 150 characters with a second strip when over length. -/
def extractDescription (content : String) : String :=
  let d0 := match descSearch content.data with
            | some g => pyStrip g
            | none => "Click to read more".data
  let d1 := stripTags d0
  let d2 := if 150 < d1.length then pyStrip (d1.take 150) else d1
  String.mk d2

/-- Embedding of `extract_post_details(html_path)` for a readable file with
contents `content` and modification time `mtime`.  `formatDate` is the
external `datetime.fromtimestamp(...).strftime("%B %d, %Y")`; `date_obj`
orders exactly as the raw timestamp does, so it is modelled by the
timestamp itself. -/
def extract_post_details (formatDate : Nat → String)
    (html_path content : String) (mtime : Nat) : PostDetails :=
  { title := extractHtmlTitle content
    description := extractDescription content
    path := "blog/" ++ os_path_basename html_path
    date_obj := mtime
    date_str := formatDate mtime }

/-- Directory entry of the blog output directory: file name, contents and
modification time. -/
structure DirEntry where
  name : String
  content : String
  mtime : Nat
deriving DecidableEq

/-- Detail records collected by `generate_blog_html`, in listing order,
for the files whose name ends in `.html`. -/
def collectPosts (formatDate : Nat → String) (blog_dir : String) :
    List DirEntry → List PostDetails
  | [] => []
  | e :: rest =>
    if strEndsWith e.name ".html" then
      extract_post_details formatDate (os_path_join blog_dir e.name) e.content e.mtime
        :: collectPosts formatDate blog_dir rest
    else collectPosts formatDate blog_dir rest

/-- Post list after `blog_posts.sort(key=lambda p: p['date_obj'], reverse=True)`:
a stable sort, descending by `date_obj`.  CPython's sort with
`reverse=True` is stable descending (equal keys keep their original
relative order), and a stable sort with respect to a total preorder has a
unique result, so the stable `insertionSort` with the non-strict
descending comparison is an exact model. -/
def sortedPosts (formatDate : Nat → String) (blog_dir : String)
    (listing : List DirEntry) : List PostDetails :=
  (collectPosts formatDate blog_dir listing).insertionSort
    (fun a b => b.date_obj ≤ a.date_obj)

def entryC0 : String := "\n                        <div class=\"blog-post-entry flex flex-col sm:flex-row items-center gap-8 py-4 border-b border-[var(--border-color-rgba)]\">\n                            <div class=\"flex-grow\">\n                                <p class=\"text-sm text-gray-400 mb-2\">"
def entryC1 : String := "</p>\n                                <h3 class=\"text-xl font-bold text-white mb-2\">"
def entryC2 : String := "</h3>\n                                <p class=\"text-gray-300 mb-4\">"
def entryC3 : String := "...</p>\n                            </div>\n                            <a href=\""
def entryC4 : String := "\" class=\"flex-shrink-0 text-[var(--neon-green)] hover:opacity-80 font-semibold flex items-center space-x-1\">\n                                <span>Read More</span>\n                                <i data-lucide=\"arrow-right\" class=\"h-5 w-5\"></i>\n                            </a>\n                        </div>"

/-- HTML entry generated for one post in the blog list. -/
def renderPostEntry (post : PostDetails) : String :=
  entryC0 ++ post.date_str ++ entryC1 ++ post.title ++ entryC2
    ++ post.description ++ entryC3 ++ post.path ++ entryC4

/-- Concatenation of the post entries, in (sorted) order. -/
def postsHtmlOfList : List PostDetails → String
  | [] => ""
  | p :: ps => renderPostEntry p ++ postsHtmlOfList ps

/-- Embedding of `generate_blog_html(blog_dir)` over an explicit directory
listing. -/
def generate_blog_html (formatDate : Nat → String) (blog_dir : String)
    (listing : List DirEntry) : String :=
  postsHtmlOfList (sortedPosts formatDate blog_dir listing)

/-- Step 2 of `main`: inject the projects fragment only when it is truthy
(a non-empty string). -/
def mainStep2 (decodeProjects : String → Option (List Project)) (fs : FS) : FS :=
  let projects_html_content := generate_projects_html decodeProjects "projects.json" fs
  if projects_html_content = "" then fs
  else update_index_html projects_html_content "PROJECTS_PLACEHOLDER" "index.html" fs

/-- Step 3 of `main`: inject the blog fragment only when it is truthy
(a non-empty string). -/
def mainStep3 (formatDate : Nat → String) (listing : List DirEntry) (fs : FS) : FS :=
  let blog_html_content := generate_blog_html formatDate "blog" listing
  if blog_html_content = "" then fs
  else update_index_html blog_html_content "BLOG_POSTS_PLACEHOLDER" "index.html" fs

/-! ### Occurrence and search lemmas -/

instance occursAtDecidable (pat text : List Char) (i : Nat) :
    Decidable (occursAt pat text i) :=
  inferInstanceAs (Decidable (pat <+: text.drop i))

theorem occursAt_drop {pat text : List Char} {n k : Nat} :
    occursAt pat (text.drop n) k ↔ occursAt pat text (n + k) := by
  unfold occursAt
  rw [List.drop_drop]

theorem occursAt_length {pat text : List Char} {i : Nat}
    (hp : pat ≠ []) (h : occursAt pat text i) : i + pat.length ≤ text.length := by
  have h1 : pat.length ≤ (text.drop i).length := h.length_le
  rw [List.length_drop] at h1
  have h2 : 0 < pat.length := List.length_pos.mpr hp
  omega

theorem findPat_eq_some_iff {pat : List Char} :
    ∀ {text : List Char} {i : Nat},
      findPat pat text = some i ↔
        occursAt pat text i ∧ ∀ k, k < i → ¬ occursAt pat text k := by
  intro text
  induction text with
  | nil =>
    intro i
    unfold findPat occursAt
    by_cases h : pat.isPrefixOf []
    · have hp : pat <+: [] := List.isPrefixOf_iff_prefix.mp h
      simp only [h, if_true]
      constructor
      · rintro h'
        cases h'
        exact ⟨by simpa using hp, by omega⟩
      · rintro ⟨-, hmin⟩
        rcases Nat.eq_zero_or_pos i with rfl | hpos
        · rfl
        · exact absurd (by simpa using hp) (hmin 0 hpos)
    · have hp : ¬ pat <+: [] := fun hc => h (List.isPrefixOf_iff_prefix.mpr hc)
      simp only [h, if_false]
      constructor
      · rintro ⟨⟩
      · rintro ⟨hocc, -⟩
        exact absurd (by simpa using hocc) hp
  | cons c rest ih =>
    intro i
    unfold findPat
    by_cases h : pat.isPrefixOf (c :: rest)
    · have hp : pat <+: (c :: rest) := List.isPrefixOf_iff_prefix.mp h
      simp only [h, if_true]
      constructor
      · rintro h'
        cases h'
        exact ⟨by simpa [occursAt] using hp, by omega⟩
      · rintro ⟨-, hmin⟩
        rcases Nat.eq_zero_or_pos i with rfl | hpos
        · rfl
        · exact absurd (by simpa [occursAt] using hp) (hmin 0 hpos)
    · have hp : ¬ pat <+: (c :: rest) := fun hc => h (List.isPrefixOf_iff_prefix.mpr hc)
      simp only [h, if_false]
      have hzero : ¬ occursAt pat (c :: rest) 0 := by simpa [occursAt] using hp
      have hshift : ∀ k, occursAt pat (c :: rest) (k + 1) ↔ occursAt pat rest k := by
        intro k
        rfl
      constructor
      · intro h'
        rcases Option.map_eq_some'.mp h' with ⟨i', hi', rfl⟩
        rcases ih.mp hi' with ⟨hocc, hmin⟩
        refine ⟨(hshift i').mpr hocc, ?_⟩
        intro k hk
        rcases Nat.eq_zero_or_pos k with rfl | hkpos
        · exact hzero
        · obtain ⟨k', rfl⟩ : ∃ k', k = k' + 1 := ⟨k - 1, by omega⟩
          intro hc
          exact hmin k' (by omega) ((hshift k').mp hc)
      · rintro ⟨hocc, hmin⟩
        rcases Nat.eq_zero_or_pos i with rfl | hpos
        · exact absurd hocc hzero
        · obtain ⟨i', rfl⟩ : ∃ i', i = i' + 1 := ⟨i - 1, by omega⟩
          have : findPat pat rest = some i' := by
            refine ih.mpr ⟨(hshift i').mp hocc, ?_⟩
            intro k hk hc
            exact hmin (k + 1) (by omega) ((hshift k).mpr hc)
          rw [this]
          rfl

theorem findPat_eq_none_iff {pat text : List Char} :
    findPat pat text = none ↔ ∀ i, ¬ occursAt pat text i := by
  constructor
  · intro h i hocc
    have hex : ∃ j, findPat pat text = some j := by
      by_contra hno
      push_neg at hno
      rcases hfp : findPat pat text with - | j
      · -- no result, yet an occurrence exists: take the minimal occurrence index
        have hmin := Nat.find_spec (p := fun k => occursAt pat text k) ⟨i, hocc⟩
        have : findPat pat text = some (Nat.find (p := fun k => occursAt pat text k) ⟨i, hocc⟩) := by
          refine findPat_eq_some_iff.mpr ⟨hmin, ?_⟩
          intro k hk
          exact Nat.find_min (p := fun k => occursAt pat text k) ⟨i, hocc⟩ hk
        rw [h] at this
        cases this
      · exact hno j hfp
    rcases hex with ⟨j, hj⟩
    rw [h] at hj
    cases hj
  · intro h
    rcases hfp : findPat pat text with - | j
    · rfl
    · exact absurd (findPat_eq_some_iff.mp hfp).1 (h j)

theorem prefix_head_of_append {p u v : List Char} (h : p <+: u ++ v)
    (hl : u.length ≤ p.length) : u <+: p :=
  List.prefix_of_prefix_length_le (List.prefix_append u v) h hl

theorem prefix_drop_of_append {p u v : List Char} (h : p <+: u ++ v)
    (hl : u.length ≤ p.length) : p.drop u.length <+: v := by
  obtain ⟨t, ht⟩ := prefix_head_of_append h hl
  obtain ⟨w, hw⟩ := h
  subst ht
  rw [List.drop_left]
  rw [List.append_assoc] at hw
  exact ⟨w, List.append_cancel_left hw⟩

theorem prefix_of_append_le {p u v : List Char} (h : p <+: u ++ v)
    (hl : p.length ≤ u.length) : p <+: u :=
  List.prefix_of_prefix_length_le h (List.prefix_append u v) hl

theorem occursAt_append_left {pat a b : List Char} {i : Nat}
    (hi : i + pat.length ≤ a.length) :
    occursAt pat (a ++ b) i ↔ occursAt pat a i := by
  unfold occursAt
  rw [List.drop_append_eq_append_drop, show i - a.length = 0 by omega, List.drop_zero]
  constructor
  · intro h
    exact prefix_of_append_le h (by rw [List.length_drop]; omega)
  · intro h
    exact h.trans (List.prefix_append _ _)

theorem occursAt_append_right {pat a b : List Char} {k : Nat} :
    occursAt pat (a ++ b) (a.length + k) ↔ occursAt pat b k := by
  unfold occursAt
  rw [List.drop_append_eq_append_drop,
    List.drop_eq_nil_of_le (by omega : a.length ≤ a.length + k),
    show a.length + k - a.length = k by omega, List.nil_append]

/-! ### Counting lemmas -/

theorem countOccur_eq_zero_iff {pat text : List Char} (hp : pat ≠ []) :
    countOccur pat text = 0 ↔ ∀ i, ¬ occursAt pat text i := by
  unfold countOccur
  rw [List.countP_eq_zero]
  constructor
  · intro h i hocc
    have hlen := occursAt_length hp hocc
    have hmem : i ∈ List.range (text.length + 1) := List.mem_range.mpr (by
      have := List.length_pos.mpr hp
      omega)
    exact absurd (decide_eq_true_eq.mpr hocc) (h i hmem)
  · intro h i hmem hdec
    exact h i (of_decide_eq_true hdec)

theorem countOccur_append {pat a b : List Char} (hp : pat ≠ [])
    (hstr : ∀ i, i < a.length → a.length < i + pat.length →
      ¬ occursAt pat (a ++ b) i) :
    countOccur pat (a ++ b) = countOccur pat a + countOccur pat b := by
  unfold countOccur
  have hlen : (a ++ b).length + 1 = a.length + (b.length + 1) := by
    rw [List.length_append]; omega
  rw [hlen, List.range_add, List.countP_append, List.countP_map]
  have hright : List.countP ((fun i => decide (pat <+: (a ++ b).drop i)) ∘ (fun x => a.length + x))
      (List.range (b.length + 1)) = List.countP (fun i => decide (pat <+: b.drop i)) (List.range (b.length + 1)) := by
    apply List.countP_congr
    intro k _
    simp only [Function.comp]
    constructor
    · intro h
      exact decide_eq_true_eq.mpr (occursAt_append_right.mp (of_decide_eq_true h))
    · intro h
      exact decide_eq_true_eq.mpr (occursAt_append_right.mpr (of_decide_eq_true h))
  rw [hright]
  have hleft : List.countP (fun i => decide (pat <+: (a ++ b).drop i)) (List.range a.length)
      = List.countP (fun i => decide (pat <+: a.drop i)) (List.range (a.length + 1)) := by
    rw [List.range_succ, List.countP_append]
    have hlast : List.countP (fun i => decide (pat <+: a.drop i)) [a.length] = 0 := by
      simp only [List.countP_cons, List.countP_nil]
      have : ¬ pat <+: a.drop a.length := by
        rw [List.drop_eq_nil_of_le (Nat.le_refl _)]
        intro hc
        exact hp (List.prefix_nil.mp hc)
      simp [this, hp]
    rw [hlast, Nat.add_zero]
    apply List.countP_congr
    intro i hmem
    have hi : i < a.length := List.mem_range.mp hmem
    by_cases hfit : i + pat.length ≤ a.length
    · constructor
      · intro h
        exact decide_eq_true_eq.mpr ((occursAt_append_left hfit).mp (of_decide_eq_true h))
      · intro h
        exact decide_eq_true_eq.mpr ((occursAt_append_left hfit).mpr (of_decide_eq_true h))
    · constructor
      · intro h
        exact absurd (of_decide_eq_true h) (hstr i hi (by omega))
      · intro h
        have := occursAt_length hp (of_decide_eq_true h)
        omega
  rw [hleft]

theorem countOccur_eq_one_unique {pat text : List Char} (hp : pat ≠ [])
    (h1 : countOccur pat text = 1) {i j : Nat}
    (hi : occursAt pat text i) (hj : occursAt pat text j) : i = j := by
  unfold countOccur at h1
  rw [List.countP_eq_length_filter] at h1
  obtain ⟨x, hx⟩ := List.length_eq_one.mp h1
  have hmem : ∀ k, occursAt pat text k → k ∈ List.filter
      (fun i => decide (pat <+: text.drop i)) (List.range (text.length + 1)) := by
    intro k hk
    rw [List.mem_filter]
    have hlen := occursAt_length hp hk
    have hpos := List.length_pos.mpr hp
    exact ⟨List.mem_range.mpr (by omega), decide_eq_true_eq.mpr hk⟩
  have hix := hmem i hi
  have hjx := hmem j hj
  rw [hx] at hix hjx
  rw [List.mem_singleton.mp hix, List.mem_singleton.mp hjx]

/-! ### Substitution lemmas -/

theorem reSubAux_no_match {s e repl text : List Char} {fuel : Nat}
    (h : findMatch s e text = none) : reSubAux s e repl fuel text = text := by
  cases fuel with
  | zero => rfl
  | succ fuel => unfold reSubAux; rw [h]

theorem findMatch_eq_none_of_noPair {s e text : List Char}
    (h : ∀ i j, occursAt s text i → occursAt e text j → i + s.length ≤ j → False) :
    findMatch s e text = none := by
  unfold findMatch
  rcases hfp : findPat s text with - | i
  · rfl
  · have hi := (findPat_eq_some_iff.mp hfp).1
    rcases hfe : findPat e (text.drop (i + s.length)) with - | k
    · simp only [hfe]
    · have hk := (findPat_eq_some_iff.mp hfe).1
      have hk' : occursAt e text (i + s.length + k) := occursAt_drop.mp hk
      exact absurd (h i (i + s.length + k) hi hk' (by omega)) (fun x => x)

theorem reSub_no_match {s e repl text : List Char}
    (h : ∀ i j, occursAt s text i → occursAt e text j → i + s.length ≤ j → False) :
    reSub s e repl text = text :=
  reSubAux_no_match (findMatch_eq_none_of_noPair h)

theorem reSub_single {s e repl : List Char} (hs : s ≠ []) (he : e ≠ [])
    (pre mid post : List Char)
    (h1 : countOccur s (pre ++ s ++ mid ++ e ++ post) = 1)
    (h2 : countOccur e (pre ++ s ++ mid ++ e ++ post) = 1) :
    reSub s e repl (pre ++ s ++ mid ++ e ++ post) = pre ++ repl ++ post := by
  set c := pre ++ s ++ mid ++ e ++ post with hc
  have hassoc1 : c = pre ++ (s ++ (mid ++ (e ++ post))) := by
    simp [hc, List.append_assoc]
  have hassoc2 : c = (pre ++ s) ++ (mid ++ (e ++ post)) := by
    simp [hc, List.append_assoc]
  have hassoc3 : c = (pre ++ s ++ mid) ++ (e ++ post) := by
    simp [hc, List.append_assoc]
  have hassoc4 : c = (pre ++ s ++ mid ++ e) ++ post := by
    simp [hc, List.append_assoc]
  -- the exhibited occurrences of the two markers
  have hOccS : occursAt s c pre.length := by
    unfold occursAt
    rw [hassoc1, List.drop_left]
    exact List.prefix_append s _
  have hlenPSM : pre.length + s.length + mid.length = (pre ++ s ++ mid).length := by
    simp only [List.length_append]
  have hOccE : occursAt e c (pre.length + s.length + mid.length) := by
    unfold occursAt
    rw [hassoc3, hlenPSM, List.drop_left]
    exact List.prefix_append e post
  have hUniqS : ∀ k, occursAt s c k → k = pre.length :=
    fun k hk => countOccur_eq_one_unique hs h1 hk hOccS
  have hUniqE : ∀ k, occursAt e c k → k = pre.length + s.length + mid.length :=
    fun k hk => countOccur_eq_one_unique he h2 hk hOccE
  -- the first marker search finds the exhibited occurrence
  have hFindS : findPat s c = some pre.length := by
    refine findPat_eq_some_iff.mpr ⟨hOccS, ?_⟩
    intro k hk hkocc
    have := hUniqS k hkocc
    omega
  have hlenPS : pre.length + s.length = (pre ++ s).length := by
    simp only [List.length_append]
  have hDropPS : c.drop (pre.length + s.length) = mid ++ (e ++ post) := by
    rw [hassoc2, hlenPS, List.drop_left]
  have hFindE : findPat e (c.drop (pre.length + s.length)) = some mid.length := by
    refine findPat_eq_some_iff.mpr ⟨?_, ?_⟩
    · unfold occursAt
      rw [hDropPS, List.drop_left]
      exact List.prefix_append e post
    · intro k hk hkocc
      have hkc : occursAt e c (pre.length + s.length + k) := occursAt_drop.mp hkocc
      have := hUniqE _ hkc
      omega
  have hMatch : findMatch s e c = some (pre.length, pre.length + s.length + mid.length) := by
    unfold findMatch
    simp only [hFindS, hFindE]
  -- fuel is positive
  have hclen : ∃ n, c.length = n + 1 := by
    have h0 : 0 < c.length := by
      rw [hassoc1]
      have := List.length_pos.mpr hs
      simp [List.length_append]
      omega
    exact ⟨c.length - 1, by omega⟩
  obtain ⟨n, hn⟩ := hclen
  have hTake : c.take pre.length = pre := by
    rw [hassoc1, List.take_left]
  have hlenPSME : pre.length + s.length + mid.length + e.length = (pre ++ s ++ mid ++ e).length := by
    simp only [List.length_append]
  have hDropAfter : c.drop (pre.length + s.length + mid.length + e.length) = post := by
    rw [hassoc4, hlenPSME, List.drop_left]
  -- no further match in the remainder
  have hNoS : ∀ k, ¬ occursAt s post k := by
    intro k hk
    have hocc : occursAt s c ((pre ++ s ++ mid ++ e).length + k) := by
      rw [hassoc4]
      exact occursAt_append_right.mpr hk
    have heq := hUniqS _ hocc
    have hslen := List.length_pos.mpr hs
    simp [List.length_append] at heq
    omega
  have hRest : reSubAux s e repl n post = post := by
    apply reSubAux_no_match
    unfold findMatch
    rcases hfp : findPat s post with - | i
    · rfl
    · exact absurd (findPat_eq_some_iff.mp hfp).1 (hNoS i)
  unfold reSub
  rw [hn]
  unfold reSubAux
  simp only [hMatch]
  rw [hTake, hDropAfter, hRest]

/-- Linear-time evaluator for `countOccur`, used to discharge concrete
counting goals by computation. -/
def countOccurAux (pat : List Char) : List Char → Nat
  | [] => if pat.isPrefixOf [] then 1 else 0
  | c :: rest =>
    (if pat.isPrefixOf (c :: rest) then 1 else 0) + countOccurAux pat rest

theorem countOccurAux_eq (pat : List Char) :
    ∀ text : List Char, countOccurAux pat text = countOccur pat text := by
  intro text
  induction text with
  | nil =>
    unfold countOccurAux countOccur
    have h1 : List.range (List.length ([] : List Char) + 1) = [0] := rfl
    rw [h1, List.countP_cons, List.countP_nil]
    by_cases h : pat.isPrefixOf []
    · rw [if_pos h]
      have hp := List.isPrefixOf_iff_prefix.mp h
      simp [hp]
    · rw [if_neg h]
      have hp : ¬ pat <+: ([] : List Char) := fun hc => h (List.isPrefixOf_iff_prefix.mpr hc)
      simp [hp]
  | cons c rest ih =>
    unfold countOccurAux countOccur
    rw [show (c :: rest).length + 1 = (rest.length + 1) + 1 by simp]
    rw [List.range_succ_eq_map, List.countP_cons, List.countP_map]
    have hcomp : List.countP ((fun i => decide (pat <+: (c :: rest).drop i)) ∘ Nat.succ)
        (List.range (rest.length + 1))
        = List.countP (fun i => decide (pat <+: rest.drop i)) (List.range (rest.length + 1)) := by
      apply List.countP_congr
      intro k _
      constructor
      · intro h
        exact h
      · intro h
        exact h
    rw [hcomp]
    rw [ih]
    unfold countOccur
    by_cases h : pat.isPrefixOf (c :: rest)
    · rw [if_pos h]
      have hp := List.isPrefixOf_iff_prefix.mp h
      have hone : (if decide (pat <+: List.drop 0 (c :: rest)) = true then 1 else 0) = 1 := by
        simp [hp]
      rw [hone]
      omega
    · rw [if_neg h]
      have hp : ¬ pat <+: (c :: rest) := fun hc => h (List.isPrefixOf_iff_prefix.mpr hc)
      have hzero : (if decide (pat <+: List.drop 0 (c :: rest)) = true then 1 else 0) = 0 := by
        simp [hp]
      rw [hzero]
      omega

/-! ### Junction lemmas: counting across concatenation boundaries -/

theorem countOccur_append_lit (L : List Char) {pat rest : List Char} (hp : pat ≠ [])
    (hL : ∀ i, i < L.length → L.length < i + pat.length → ¬ (L.drop i <+: pat)) :
    countOccur pat (L ++ rest) = countOccur pat L + countOccur pat rest := by
  apply countOccur_append hp
  intro i hi hlen hocc
  unfold occursAt at hocc
  rw [List.drop_append_eq_append_drop, show i - L.length = 0 by omega,
    List.drop_zero] at hocc
  have hdl : (L.drop i).length ≤ pat.length := by
    rw [List.length_drop]; omega
  exact hL i hi hlen (prefix_head_of_append hocc hdl)

theorem countOccur_append_field (L : List Char) {pat x rest : List Char} (hp : pat ≠ [])
    (hL : L ≠ [])
    (hQ : ∀ k, k < pat.length → 0 < k → (pat.drop k).head? ≠ L.head?) :
    countOccur pat (x ++ (L ++ rest))
      = countOccur pat x + countOccur pat (L ++ rest) := by
  apply countOccur_append hp
  intro i hi hlen hocc
  unfold occursAt at hocc
  rw [List.drop_append_eq_append_drop, show i - x.length = 0 by omega,
    List.drop_zero] at hocc
  have hklen : (x.drop i).length = x.length - i := List.length_drop _ _
  have hkle : (x.drop i).length ≤ pat.length := by omega
  have hdropPre := prefix_drop_of_append hocc hkle
  have hkpos : 0 < (x.drop i).length := by omega
  have hklt : (x.drop i).length < pat.length := by omega
  have hdne : pat.drop (x.drop i).length ≠ [] := by
    intro hnil
    have := congrArg List.length hnil
    rw [List.length_drop] at this
    simp at this
    omega
  obtain ⟨ch, tl, hct⟩ := List.exists_cons_of_ne_nil hdne
  obtain ⟨dh, dl, hdt⟩ := List.exists_cons_of_ne_nil hL
  obtain ⟨t, ht⟩ := hdropPre
  rw [hct, hdt] at ht
  have hch : ch = dh := by
    have := congrArg List.head? ht
    simpa using this
  refine hQ (x.drop i).length hklt hkpos ?_
  rw [hct, hdt, hch]
  rfl

theorem countOccur_append_field_end (L : List Char) {pat x : List Char}
    (hp : pat ≠ []) (hL : L ≠ [])
    (hQ : ∀ k, k < pat.length → 0 < k → (pat.drop k).head? ≠ L.head?) :
    countOccur pat (x ++ L) = countOccur pat x + countOccur pat L := by
  have h : x ++ L = x ++ (L ++ []) := by simp
  rw [h, countOccur_append_field L hp hL hQ]
  simp

/-- Helper to settle a concrete `countOccur` value through the linear
evaluator. -/
theorem countOccur_eval {pat text : List Char} {n : Nat}
    (h : countOccurAux pat text = n) : countOccur pat text = n :=
  (countOccurAux_eq pat text).symm.trans h

/-- The pattern of the claim about live-demo links. -/
def ldPat : List Char := "Live Demo".data

theorem ldPat_ne_nil : ldPat ≠ [] := by decide

theorem tagsHtml_count (ts : List String)
    (h : ∀ t ∈ ts, countOccur ldPat t.data = 0) :
    countOccur ldPat (tagsHtml ts).data = 0 := by
  induction ts with
  | nil =>
    exact countOccur_eval (by decide)
  | cons t ts ih =>
    have ht : countOccur ldPat t.data = 0 := h t (List.mem_cons_self t ts)
    have hts : countOccur ldPat (tagsHtml ts).data = 0 :=
      ih (fun u hu => h u (List.mem_cons_of_mem t hu))
    show countOccur ldPat (tagC0 ++ t ++ tagC1 ++ tagsHtml ts).data = 0
    simp only [String.data_append, List.append_assoc]
    rw [countOccur_append_lit tagC0.data ldPat_ne_nil (by decide)]
    rw [countOccur_append_field tagC1.data ldPat_ne_nil (by decide) (by decide)]
    rw [countOccur_append_lit tagC1.data ldPat_ne_nil (by decide)]
    have h0 : countOccur ldPat tagC0.data = 0 := countOccur_eval (by decide)
    have h1 : countOccur ldPat tagC1.data = 0 := countOccur_eval (by decide)
    omega

theorem liveDemoButton_count_none (p : Project)
    (h : p.liveDemoUrl = none ∨ p.liveDemoUrl = some "") :
    countOccur ldPat (liveDemoButton p).data = 0 := by
  have hb : liveDemoButton p = "" := by
    unfold liveDemoButton
    rcases h with h | h
    · rw [h]
    · rw [h]
      rfl
  rw [hb]
  exact countOccur_eval (by decide)

theorem liveDemoButton_count_some (p : Project) (u : String)
    (hld : p.liveDemoUrl = some u) (hu : u ≠ "")
    (hcu : countOccur ldPat u.data = 0) :
    countOccur ldPat (liveDemoButton p).data = 1 := by
  have hb : liveDemoButton p = demoC0 ++ u ++ demoC1 := by
    unfold liveDemoButton
    rw [hld]
    show (if u = "" then "" else demoC0 ++ u ++ demoC1) = demoC0 ++ u ++ demoC1
    rw [if_neg hu]
  rw [hb]
  simp only [String.data_append, List.append_assoc]
  rw [countOccur_append_lit demoC0.data ldPat_ne_nil (by decide)]
  rw [countOccur_append_field_end demoC1.data ldPat_ne_nil (by decide) (by decide)]
  have h0 : countOccur ldPat demoC0.data = 0 := countOccur_eval (by decide)
  have h1 : countOccur ldPat demoC1.data = 1 := countOccur_eval (by decide)
  omega

theorem btn_cardC7_count (p : Project) :
    countOccur ldPat ((liveDemoButton p).data ++ cardC7.data)
      = countOccur ldPat (liveDemoButton p).data := by
  have h7 : countOccur ldPat cardC7.data = 0 := countOccur_eval (by decide)
  rcases hld : p.liveDemoUrl with - | u
  · have hb : liveDemoButton p = "" := by
      unfold liveDemoButton
      rw [hld]
    rw [hb]
    show countOccur ldPat ([] ++ cardC7.data) = countOccur ldPat ([] : List Char)
    rw [List.nil_append, h7]
    exact (countOccur_eval (by decide)).symm
  · by_cases hu : u = ""
    · have hb : liveDemoButton p = "" := by
        unfold liveDemoButton
        rw [hld]
        show (if u = "" then "" else demoC0 ++ u ++ demoC1) = ""
        rw [if_pos hu]
      rw [hb]
      show countOccur ldPat ([] ++ cardC7.data) = countOccur ldPat ([] : List Char)
      rw [List.nil_append, h7]
      exact (countOccur_eval (by decide)).symm
    · have hb : liveDemoButton p = demoC0 ++ u ++ demoC1 := by
        unfold liveDemoButton
        rw [hld]
        show (if u = "" then "" else demoC0 ++ u ++ demoC1) = demoC0 ++ u ++ demoC1
        rw [if_neg hu]
      rw [hb]
      simp only [String.data_append, List.append_assoc]
      rw [countOccur_append_lit demoC0.data ldPat_ne_nil (by decide)]
      rw [countOccur_append_lit demoC0.data ldPat_ne_nil (by decide)]
      rw [countOccur_append_field demoC1.data ldPat_ne_nil (by decide) (by decide)]
      rw [countOccur_append_field_end demoC1.data ldPat_ne_nil (by decide) (by decide)]
      rw [countOccur_append_lit demoC1.data ldPat_ne_nil (by decide)]
      have h1 : countOccur ldPat demoC1.data = 1 := countOccur_eval (by decide)
      omega

theorem renderProject_count (p : Project)
    (himg : countOccur ldPat
      (p.image.getD "https://placehold.co/600x300/1f2937/bfff00?text=Project").data = 0)
    (htA : countOccur ldPat (p.title.getD "Project").data = 0)
    (htH : countOccur ldPat (p.title.getD "Untitled Project").data = 0)
    (hd : countOccur ldPat (p.description.getD "").data = 0)
    (htags : ∀ t ∈ p.tags.getD [], countOccur ldPat t.data = 0)
    (hsrc : countOccur ldPat (p.sourceCodeUrl.getD "#").data = 0) :
    countOccur ldPat (renderProject p).data
      = countOccur ldPat (liveDemoButton p).data := by
  have hts : countOccur ldPat (tagsHtml (p.tags.getD [])).data = 0 :=
    tagsHtml_count _ htags
  have hb7 := btn_cardC7_count p
  show countOccur ldPat (cardC0 ++ _ ++ cardC1 ++ _ ++ cardC2 ++ _ ++ cardC3 ++ _
      ++ cardC4 ++ _ ++ cardC5 ++ _ ++ cardC6 ++ _ ++ cardC7).data = _
  simp only [String.data_append, List.append_assoc]
  rw [countOccur_append_lit cardC0.data ldPat_ne_nil (by decide)]
  rw [countOccur_append_field cardC1.data ldPat_ne_nil (by decide) (by decide)]
  rw [countOccur_append_lit cardC1.data ldPat_ne_nil (by decide)]
  rw [countOccur_append_field cardC2.data ldPat_ne_nil (by decide) (by decide)]
  rw [countOccur_append_lit cardC2.data ldPat_ne_nil (by decide)]
  rw [countOccur_append_field cardC3.data ldPat_ne_nil (by decide) (by decide)]
  rw [countOccur_append_lit cardC3.data ldPat_ne_nil (by decide)]
  rw [countOccur_append_field cardC4.data ldPat_ne_nil (by decide) (by decide)]
  rw [countOccur_append_lit cardC4.data ldPat_ne_nil (by decide)]
  rw [countOccur_append_field cardC5.data ldPat_ne_nil (by decide) (by decide)]
  rw [countOccur_append_lit cardC5.data ldPat_ne_nil (by decide)]
  rw [countOccur_append_field cardC6.data ldPat_ne_nil (by decide) (by decide)]
  rw [countOccur_append_lit cardC6.data ldPat_ne_nil (by decide)]
  rw [hb7]
  have h0 : countOccur ldPat cardC0.data = 0 := countOccur_eval (by decide)
  have h1 : countOccur ldPat cardC1.data = 0 := countOccur_eval (by decide)
  have h2 : countOccur ldPat cardC2.data = 0 := countOccur_eval (by decide)
  have h3 : countOccur ldPat cardC3.data = 0 := countOccur_eval (by decide)
  have h4 : countOccur ldPat cardC4.data = 0 := countOccur_eval (by decide)
  have h5 : countOccur ldPat cardC5.data = 0 := countOccur_eval (by decide)
  have h6 : countOccur ldPat cardC6.data = 0 := countOccur_eval (by decide)
  omega

/-! ### Support lemmas -/

theorem startMarker_data_ne_nil (placeholder : String) :
    (startMarker placeholder).data ≠ [] := by
  intro h
  have hd : (startMarker placeholder).data
      = "<!-- ".data ++ (placeholder.data ++ "_START -->".data) := by
    simp [startMarker, String.data_append]
  rw [hd] at h
  have h5 : ("<!-- " : String).data.length = 5 := rfl
  have hl := congrArg List.length h
  rw [List.length_append, List.length_append, h5] at hl
  simp at hl

theorem endMarker_data_ne_nil (placeholder : String) :
    (endMarker placeholder).data ≠ [] := by
  intro h
  have hd : (endMarker placeholder).data
      = "<!-- ".data ++ (placeholder.data ++ "_END -->".data) := by
    simp [endMarker, String.data_append]
  rw [hd] at h
  have h5 : ("<!-- " : String).data.length = 5 := rfl
  have hl := congrArg List.length h
  rw [List.length_append, List.length_append, h5] at hl
  simp at hl

theorem pyStrip_length_le (l : List Char) : (pyStrip l).length ≤ l.length := by
  unfold pyStrip
  calc (((l.dropWhile pySpace).reverse.dropWhile pySpace).reverse).length
      = ((l.dropWhile pySpace).reverse.dropWhile pySpace).length :=
        List.length_reverse _
    _ ≤ (l.dropWhile pySpace).reverse.length :=
        (List.dropWhile_sublist _).length_le
    _ = (l.dropWhile pySpace).length := List.length_reverse _
    _ ≤ l.length := (List.dropWhile_sublist _).length_le

theorem create_blog_post_preserves (render : String → String)
    (md_file_path template_path output_dir : String) (fs : FS) (p : String)
    (h : fs p ≠ none) :
    (create_blog_post render md_file_path template_path output_dir fs).2 p = fs p := by
  unfold create_blog_post
  by_cases hout : (fs (computed_output_path output_dir md_file_path)).isSome
  · rw [if_pos hout]
  · rw [if_neg hout]
    rcases hmd : fs md_file_path with - | md
    · rfl
    · rcases htpl : fs template_path with - | tpl
      · simp only [htpl]
      · simp only [htpl]
        by_cases hp : p = computed_output_path output_dir md_file_path
        · subst hp
          exact absurd (Option.not_isSome_iff_eq_none.mp hout) h
        · simp [hp]

/-! ### Claim theorems -/

/-- C2: for every Markdown source path whose computed output path already
exists, `create_blog_post` skips conversion, returns that existing path
and leaves the filesystem (hence the existing output file's content)
unchanged; consequently a conversion pass (`runStep1`, the per-file loop
of the pipeline) never modifies any file that already exists, so a second
run leaves every already-generated post page byte-identical even if the
source Markdown changed. -/
theorem c2_skip_existing (render : String → String)
    (source_dir template_path output_dir : String) :
    (∀ (md_file_path : String) (fs : FS),
      (fs (computed_output_path output_dir md_file_path)).isSome →
      create_blog_post render md_file_path template_path output_dir fs
        = (some (computed_output_path output_dir md_file_path), fs)) ∧
    (∀ (files : List String) (fs : FS) (p : String), fs p ≠ none →
      runStep1 render source_dir template_path output_dir files fs p = fs p) := by
  constructor
  · intro md_file_path fs h
    unfold create_blog_post
    rw [if_pos h]
  · intro files
    induction files with
    | nil =>
      intro fs p h
      rfl
    | cons f rest ih =>
      intro fs p h
      unfold runStep1
      by_cases hmd : strEndsWith f ".md"
      · rw [if_pos hmd]
        have hpres := create_blog_post_preserves render
          (os_path_join source_dir f) template_path output_dir fs p h
        have hne : (create_blog_post render (os_path_join source_dir f)
            template_path output_dir fs).2 p ≠ none := by
          rw [hpres]; exact h
        rw [ih _ p hne, hpres]
      · rw [if_neg hmd]
        exact ih fs p h

/-- C2 witness: a filesystem where `blog/a.html` already exists with body
`OLD`; converting `blogs_md/a.md` returns the existing path and changes
nothing, and the conversion pass leaves the existing file intact. -/
theorem c2_skip_existing_witness :
    create_blog_post (fun s => s) "blogs_md/a.md" "template.html" "blog"
      (fun p => if p = "blog/a.html" then some "OLD" else none)
      = (some (computed_output_path "blog" "blogs_md/a.md"),
         fun p => if p = "blog/a.html" then some "OLD" else none) ∧
    runStep1 (fun s => s) "blogs_md" "template.html" "blog" ["a.md"]
      (fun p => if p = "blog/a.html" then some "OLD" else none) "blog/a.html"
      = (fun p => if p = "blog/a.html" then some "OLD" else none) "blog/a.html" := by
  refine ⟨(c2_skip_existing (fun s => s) "blogs_md" "template.html" "blog").1
      "blogs_md/a.md" _ (by decide), ?_⟩
  exact (c2_skip_existing (fun s => s) "blogs_md" "template.html" "blog").2
    ["a.md"] _ "blog/a.html" (by decide)

/-- C7: when the computed output path does not exist and the source
Markdown file or the template file cannot be opened (is absent), the
function returns `none` and writes nothing (the filesystem is unchanged);
the embedding is total, so the surrounding run continues. -/
theorem c7_missing_inputs (render : String → String)
    (md_file_path template_path output_dir : String) (fs : FS)
    (hout : fs (computed_output_path output_dir md_file_path) = none)
    (hmiss : fs md_file_path = none ∨ fs template_path = none) :
    create_blog_post render md_file_path template_path output_dir fs = (none, fs) := by
  unfold create_blog_post
  rw [if_neg (by rw [hout]; exact Bool.false_ne_true)]
  rcases hmiss with hmd | htpl
  · rw [hmd]
  · rcases hmd : fs md_file_path with - | md
    · rfl
    · simp only [htpl]

/-- C7 witness: an empty filesystem (no output, no source, no template);
conversion fails with `none` and no writes. -/
theorem c7_missing_inputs_witness :
    create_blog_post (fun s => s) "blogs_md/a.md" "template.html" "blog"
      (fun _ => none) = (none, fun _ => none) :=
  c7_missing_inputs (fun s => s) "blogs_md/a.md" "template.html" "blog"
    (fun _ => none) rfl (Or.inl rfl)

/-- C8: when the projects file is missing (`FileNotFoundError`) or its
contents fail to decode (`json.JSONDecodeError`, i.e. the decoder returns
`none`), `generate_projects_html` returns the empty fragment; the
embedding is total, so no error aborts the run. -/
theorem c8_missing_or_invalid (decodeProjects : String → Option (List Project))
    (projects_json_path : String) (fs : FS)
    (h : fs projects_json_path = none ∨
      ∃ s, fs projects_json_path = some s ∧ decodeProjects s = none) :
    generate_projects_html decodeProjects projects_json_path fs = "" := by
  unfold generate_projects_html
  rcases h with h | ⟨s, hs, hd⟩
  · rw [h]
  · rw [hs]
    simp only [hd]

/-- C8 witness: a missing `projects.json` yields the empty fragment, and
so does an unreadable one. -/
theorem c8_missing_or_invalid_witness :
    generate_projects_html (fun _ => none) "projects.json" (fun _ => none) = "" ∧
    generate_projects_html (fun _ => none) "projects.json"
      (fun p => if p = "projects.json" then some "not json" else none) = "" :=
  ⟨c8_missing_or_invalid (fun _ => none) "projects.json" (fun _ => none)
      (Or.inl rfl),
   c8_missing_or_invalid (fun _ => none) "projects.json"
      (fun p => if p = "projects.json" then some "not json" else none)
      (Or.inr ⟨"not json", rfl, rfl⟩)⟩

/-- C9: when a generated fragment is the empty string the driver skips
that region's injection entirely (`if projects_html_content:` /
`if blog_html_content:` are false for the empty string), so the index
file — and every other file — is left untouched. -/
theorem c9_empty_fragment_skips (decodeProjects : String → Option (List Project))
    (formatDate : Nat → String) (listing : List DirEntry) (fs : FS) :
    (generate_projects_html decodeProjects "projects.json" fs = "" →
      ∀ p, mainStep2 decodeProjects fs p = fs p) ∧
    (generate_blog_html formatDate "blog" listing = "" →
      ∀ p, mainStep3 formatDate listing fs p = fs p) := by
  constructor
  · intro h p
    unfold mainStep2
    rw [if_pos h]
  · intro h p
    unfold mainStep3
    rw [if_pos h]

/-- C9 witness: with no projects file and an empty blog directory both
fragments are empty and both driver steps leave the index file alone. -/
theorem c9_empty_fragment_skips_witness :
    mainStep2 (fun _ => none) (fun _ => none) "index.html"
      = (fun _ => none : FS) "index.html" ∧
    mainStep3 (fun _ => "") [] (fun _ => none) "index.html"
      = (fun _ => none : FS) "index.html" :=
  ⟨(c9_empty_fragment_skips (fun _ => none) (fun _ => "") [] (fun _ => none)).1
      rfl "index.html",
   (c9_empty_fragment_skips (fun _ => none) (fun _ => "") [] (fun _ => none)).2
      rfl "index.html"⟩

/-- C10: when the computed output path already exists, `create_blog_post`
returns it without consulting the source or the template, so it succeeds
even when both are missing. -/
theorem c10_skip_without_reading (render : String → String)
    (md_file_path template_path output_dir : String) (fs : FS)
    (hout : (fs (computed_output_path output_dir md_file_path)).isSome)
    (hmd : fs md_file_path = none) (htpl : fs template_path = none) :
    create_blog_post render md_file_path template_path output_dir fs
      = (some (computed_output_path output_dir md_file_path), fs) := by
  unfold create_blog_post
  rw [if_pos hout]

/-- C10 witness: only the output file exists; conversion still returns the
existing path with no filesystem change. -/
theorem c10_skip_without_reading_witness :
    create_blog_post (fun s => s) "blogs_md/a.md" "template.html" "blog"
      (fun p => if p = "blog/a.html" then some "X" else none)
      = (some (computed_output_path "blog" "blogs_md/a.md"),
         fun p => if p = "blog/a.html" then some "X" else none) :=
  c10_skip_without_reading (fun s => s) "blogs_md/a.md" "template.html" "blog"
    (fun p => if p = "blog/a.html" then some "X" else none)
    (by decide) (by decide) (by decide)

/-- C1: with well-formed markers (each occurring exactly once, in
start-then-end order) and a non-empty generated fragment (backslash-free,
so that `re.sub` performs a literal replacement), the injection step
rewrites the index file to contain the fragment between the two marker
lines, both of which remain intact. -/
theorem c1_markers_injection (placeholder index_path : String) (fs : FS)
    (pre mid post frag : List Char)
    (hidx : fs index_path = some (String.mk
      (pre ++ (startMarker placeholder).data ++ mid
        ++ (endMarker placeholder).data ++ post)))
    (h1 : countOccur (startMarker placeholder).data
      (pre ++ (startMarker placeholder).data ++ mid
        ++ (endMarker placeholder).data ++ post) = 1)
    (h2 : countOccur (endMarker placeholder).data
      (pre ++ (startMarker placeholder).data ++ mid
        ++ (endMarker placeholder).data ++ post) = 1)
    (hfrag : frag ≠ []) (hnb : '\\' ∉ frag) :
    (update_index_html (String.mk frag) placeholder index_path fs) index_path
      = some (String.mk (pre ++ (startMarker placeholder).data
          ++ '\n' :: frag ++ '\n' :: indent24.data
          ++ (endMarker placeholder).data ++ post)) := by
  unfold update_index_html
  rw [hidx]
  show (if index_path = index_path then
      some (String.mk (reSub (startMarker placeholder).data (endMarker placeholder).data
        ((startMarker placeholder).data ++ '\n' :: frag ++ '\n' :: indent24.data
          ++ (endMarker placeholder).data)
        (pre ++ (startMarker placeholder).data ++ mid
          ++ (endMarker placeholder).data ++ post)))
    else fs index_path)
    = some (String.mk (pre ++ (startMarker placeholder).data
        ++ '\n' :: frag ++ '\n' :: indent24.data
        ++ (endMarker placeholder).data ++ post))
  rw [if_pos rfl]
  rw [reSub_single (startMarker_data_ne_nil placeholder)
    (endMarker_data_ne_nil placeholder) pre mid post h1 h2]
  simp [List.append_assoc]

/-- C1 witness: a concrete index file `A<markers around old content>B`
and the fragment `X`; after injection the file reads
`A<start>\nX\n<indent><end>B`. -/
theorem c1_markers_injection_witness :
    (update_index_html (String.mk ['X']) "PROJECTS_PLACEHOLDER" "index.html"
      (fun p => if p = "index.html" then some (String.mk
        ("A".data ++ (startMarker "PROJECTS_PLACEHOLDER").data ++ "old".data
          ++ (endMarker "PROJECTS_PLACEHOLDER").data ++ "B".data)) else none))
      "index.html"
      = some (String.mk ("A".data ++ (startMarker "PROJECTS_PLACEHOLDER").data
          ++ '\n' :: ['X'] ++ '\n' :: indent24.data
          ++ (endMarker "PROJECTS_PLACEHOLDER").data ++ "B".data)) :=
  c1_markers_injection "PROJECTS_PLACEHOLDER" "index.html" _
    "A".data "old".data "B".data ['X'] rfl (by decide) (by decide)
    (by decide) (by decide)

/-- C3 counterexample: a file containing the marker pair twice (so not
"exactly once each"), where the claim predicts no content change; the
code substitutes both regions, so the content does change. -/
def c3Dup : String := "<!-- PROJECTS_PLACEHOLDER_START -->A<!-- PROJECTS_PLACEHOLDER_END --><!-- PROJECTS_PLACEHOLDER_START -->B<!-- PROJECTS_PLACEHOLDER_END -->"

/-- C3 is false as stated: with duplicated markers (each marker occurring
twice), `update_index_html` does change the file's content. -/
theorem c3_counterexample :
    countOccur (startMarker "PROJECTS_PLACEHOLDER").data c3Dup.data = 2 ∧
    countOccur (endMarker "PROJECTS_PLACEHOLDER").data c3Dup.data = 2 ∧
    (update_index_html "X" "PROJECTS_PLACEHOLDER" "index.html"
      (fun p => if p = "index.html" then some c3Dup else none)) "index.html"
      ≠ some c3Dup :=
  ⟨countOccur_eval (by decide), countOccur_eval (by decide), by decide⟩

/-- C3 amended: injection is a content no-op exactly when no occurrence
of the start marker is followed (at or beyond its end) by an occurrence
of the end marker — markers absent or malformed/out-of-order.  The file
is rewritten in full with its content unchanged. -/
theorem c3_amended_noop (frag placeholder index_path : String) (fs : FS)
    (content : String)
    (hidx : fs index_path = some content)
    (hno : ∀ i j, occursAt (startMarker placeholder).data content.data i →
      occursAt (endMarker placeholder).data content.data j →
      i + (startMarker placeholder).data.length ≤ j → False) :
    ∀ p, (update_index_html frag placeholder index_path fs) p = fs p := by
  intro p
  unfold update_index_html
  rw [hidx]
  show (if p = index_path then
      some (String.mk (reSub (startMarker placeholder).data (endMarker placeholder).data
        ((startMarker placeholder).data ++ '\n' :: frag.data ++ '\n' :: indent24.data
          ++ (endMarker placeholder).data)
        content.data))
    else fs p) = fs p
  rw [reSub_no_match hno]
  by_cases hp : p = index_path
  · rw [if_pos hp, hp, hidx]
  · rw [if_neg hp]

/-- C3 amended witness: a five-character file cannot contain the
35-character start marker, so injection leaves it untouched. -/
theorem c3_amended_noop_witness :
    (update_index_html "X" "PROJECTS_PLACEHOLDER" "index.html"
      (fun p => if p = "index.html" then some "hello" else none)) "index.html"
      = (fun p => if p = "index.html" then some "hello" else none : FS) "index.html" :=
  c3_amended_noop "X" "PROJECTS_PLACEHOLDER" "index.html" _ "hello" rfl
    (fun i j hS _ _ => by
      have hlen := occursAt_length
        (startMarker_data_ne_nil "PROJECTS_PLACEHOLDER") hS
      have h35 : (startMarker "PROJECTS_PLACEHOLDER").data.length = 35 := by decide
      have h5 : ("hello" : String).data.length = 5 := by decide
      rw [h35, h5] at hlen
      omega) "index.html"

/-- C4 counterexample input: the first paragraph is 149 `a`s, a space and
ten `b`s; the stripped text has 160 characters, but truncation to 150
ends in a space which the final `.strip()` removes, leaving 149. -/
def c4Group : List Char := List.replicate 149 'a' ++ ' ' :: List.replicate 10 'b'

def c4Content : String :=
  String.mk ("<div class=\"blog-content\"><p>".data ++ c4Group ++ "</p>".data)

/-- C4 is false as stated: here the stripped description paragraph
exceeds 150 characters, yet the extracted description has 149 characters,
not exactly 150, because the truncated prefix is stripped again. -/
theorem c4_counterexample :
    descSearch c4Content.data = some c4Group ∧
    150 < (stripTags (pyStrip c4Group)).length ∧
    (extractDescription c4Content).data.length = 149 :=
  ⟨by decide, by decide, by decide⟩

/-- C4 amended: when the stripped first-paragraph text exceeds 150
characters, the extracted description is the first 150 characters of the
stripped text, trimmed once more of surrounding whitespace — hence at
most 150 characters (and exactly 150 only when that prefix starts and
ends with non-whitespace). -/
theorem c4_amended_truncation (content : String) (g : List Char)
    (hg : descSearch content.data = some g)
    (hlen : 150 < (stripTags (pyStrip g)).length) :
    extractDescription content
      = String.mk (pyStrip ((stripTags (pyStrip g)).take 150)) ∧
    (extractDescription content).data.length ≤ 150 := by
  have he : extractDescription content
      = String.mk (pyStrip ((stripTags (pyStrip g)).take 150)) := by
    unfold extractDescription
    rw [hg]
    show String.mk (if 150 < (stripTags (pyStrip g)).length then
        pyStrip ((stripTags (pyStrip g)).take 150)
      else stripTags (pyStrip g))
      = String.mk (pyStrip ((stripTags (pyStrip g)).take 150))
    rw [if_pos hlen]
  refine ⟨he, ?_⟩
  rw [he]
  show (pyStrip ((stripTags (pyStrip g)).take 150)).length ≤ 150
  calc (pyStrip ((stripTags (pyStrip g)).take 150)).length
      ≤ ((stripTags (pyStrip g)).take 150).length := pyStrip_length_le _
    _ ≤ 150 := List.length_take_le _ _

/-- C4 amended witness: the counterexample page satisfies the premise and
yields the doubly-stripped 150-character prefix, of length at most 150. -/
theorem c4_amended_truncation_witness :
    extractDescription c4Content
      = String.mk (pyStrip ((stripTags (pyStrip c4Group)).take 150)) ∧
    (extractDescription c4Content).data.length ≤ 150 :=
  c4_amended_truncation c4Content c4Group (by decide) (by decide)

/-- C5 counterexample record: the `liveDemoUrl` field is present but
holds the empty string, which is falsy in Python. -/
def c5Proj : Project :=
  ⟨some "T", some "D", some "I", some ["t"], some "S", some ""⟩

/-- C5 is false as stated: this record has the `liveDemoUrl` field
present, yet its rendered card contains no "Live Demo" link at all. -/
theorem c5_counterexample :
    c5Proj.liveDemoUrl.isSome = true ∧
    countOccur ldPat (renderProject c5Proj).data = 0 :=
  ⟨rfl, countOccur_eval (by decide)⟩

/-- C5 amended: provided no field value itself contains the text
`Live Demo`, a record whose `liveDemoUrl` is absent (or present but
empty, hence falsy) renders a card with no "Live Demo" link, and a
record whose `liveDemoUrl` is present and non-empty renders exactly
one. -/
theorem c5_amended_live_demo (p : Project)
    (himg : countOccur ldPat
      (p.image.getD "https://placehold.co/600x300/1f2937/bfff00?text=Project").data = 0)
    (htA : countOccur ldPat (p.title.getD "Project").data = 0)
    (htH : countOccur ldPat (p.title.getD "Untitled Project").data = 0)
    (hd : countOccur ldPat (p.description.getD "").data = 0)
    (htags : ∀ t ∈ p.tags.getD [], countOccur ldPat t.data = 0)
    (hsrc : countOccur ldPat (p.sourceCodeUrl.getD "#").data = 0)
    (hurl : ∀ u, p.liveDemoUrl = some u → countOccur ldPat u.data = 0) :
    ((p.liveDemoUrl = none ∨ p.liveDemoUrl = some "") →
      countOccur ldPat (renderProject p).data = 0) ∧
    (∀ u, p.liveDemoUrl = some u → u ≠ "" →
      countOccur ldPat (renderProject p).data = 1) := by
  have hmain := renderProject_count p himg htA htH hd htags hsrc
  constructor
  · intro h
    rw [hmain]
    exact liveDemoButton_count_none p h
  · intro u hu hne
    rw [hmain]
    exact liveDemoButton_count_some p u hu hne (hurl u hu)

/-- C5 amended witness: the same record with a non-empty demo URL renders
exactly one "Live Demo" link. -/
theorem c5_amended_live_demo_witness :
    countOccur ldPat (renderProject
      ⟨some "T", some "D", some "I", some ["t"], some "S", some "https://demo"⟩).data = 1 :=
  (c5_amended_live_demo
    ⟨some "T", some "D", some "I", some ["t"], some "S", some "https://demo"⟩
    (countOccur_eval (by decide)) (countOccur_eval (by decide))
    (countOccur_eval (by decide)) (countOccur_eval (by decide))
    (by decide) (countOccur_eval (by decide))
    (fun u hu => by
      cases Option.some.inj hu
      exact countOccur_eval (by decide))).2
    "https://demo" rfl (by decide)

/-- C6: the blog fragment is the concatenation of the entries of the
sorted post list, and that list is ordered by `date_obj` (the file
modification timestamp) descending: whenever the entry at position `i`
has a strictly smaller timestamp than the one at position `j`, the entry
at `j` comes first (`j < i`); so a page with the larger of two distinct
mtimes is listed before the other. -/
theorem c6_blog_sorted_desc (formatDate : Nat → String) (blog_dir : String)
    (listing : List DirEntry) :
    generate_blog_html formatDate blog_dir listing
      = postsHtmlOfList (sortedPosts formatDate blog_dir listing) ∧
    ∀ (i j : Fin (sortedPosts formatDate blog_dir listing).length),
      ((sortedPosts formatDate blog_dir listing).get i).date_obj
        < ((sortedPosts formatDate blog_dir listing).get j).date_obj →
      (j : Nat) < (i : Nat) := by
  refine ⟨rfl, ?_⟩
  have hpw : List.Pairwise (fun a b => b.date_obj ≤ a.date_obj)
      (sortedPosts formatDate blog_dir listing) := by
    unfold sortedPosts
    haveI : IsTotal PostDetails (fun a b => b.date_obj ≤ a.date_obj) :=
      ⟨fun a b => Nat.le_total b.date_obj a.date_obj⟩
    haveI : IsTrans PostDetails (fun a b => b.date_obj ≤ a.date_obj) :=
      ⟨fun a b c hab hbc => Nat.le_trans hbc hab⟩
    exact List.sorted_insertionSort _ _
  intro i j hlt
  rcases Nat.lt_or_ge (j : Nat) (i : Nat) with h | h
  · exact h
  · exfalso
    rcases Nat.eq_or_lt_of_le h with heq | hltn
    · have heqf : i = j := Fin.ext heq
      rw [heqf] at hlt
      exact absurd hlt (lt_irrefl _)
    · have hr := List.pairwise_iff_get.mp hpw i j hltn
      omega

/-- C6 witness: two pages with mtimes 1 and 2; the page with mtime 2 is
listed first (position 0), the other second. -/
theorem c6_blog_sorted_desc_witness :
    generate_blog_html (fun _ => "") "blog" [⟨"a.html", "x", 1⟩, ⟨"b.html", "y", 2⟩]
      = postsHtmlOfList (sortedPosts (fun _ => "") "blog"
          [⟨"a.html", "x", 1⟩, ⟨"b.html", "y", 2⟩]) ∧
    (0 : Nat) < 1 := by
  refine ⟨(c6_blog_sorted_desc (fun _ => "") "blog" _).1, ?_⟩
  exact (c6_blog_sorted_desc (fun _ => "") "blog"
      [⟨"a.html", "x", 1⟩, ⟨"b.html", "y", 2⟩]).2
    ⟨1, by decide⟩ ⟨0, by decide⟩ (by decide)
